import Mathlib

/-!
Shallow embedding of the omarchy-wallpaper-picker core
(src/encoder.rs, src/app.rs, src/ui.rs, src/main.rs of the repository),
and theorems settling the specification claims about it.

Machine integers (`usize`, `u16`) are modelled as `Nat`; no claim here
depends on wraparound, and all arithmetic in the relevant paths uses
saturating or guarded subtraction in the source.  The opaque external
protocol value produced by `ratatui_image::picker::Picker::new_resize_protocol`
is modelled as a `Nat` determined by its input image (itself a `Nat`),
so that artifacts can be traced back to the image they were encoded from.
-/

namespace Picker

/-- Models the external `Picker::new_resize_protocol` (ratatui_image):
an opaque encoding step; the protocol is represented by the image it was
produced from. Used both by the worker thread (encoder.rs line 51) and by
the synchronous render path (ui.rs line 205). -/
def newResizeProtocol (image : Nat) : Nat := image

end Picker

namespace Encoder

/-- `CacheKey` from src/encoder.rs lines 25-30: (index, width, height). -/
structure CacheKey where
  index : Nat
  width : Nat
  height : Nat
deriving DecidableEq, Repr

/-- `EncodeRequest` from src/encoder.rs lines 8-14. -/
structure EncodeRequest where
  index : Nat
  image : Nat
  width : Nat
  height : Nat
deriving DecidableEq, Repr

/-- `EncodeResult` from src/encoder.rs lines 16-22. -/
structure EncodeResult where
  index : Nat
  width : Nat
  height : Nat
  protocol : Nat
deriving DecidableEq, Repr

/-- The key a result is filed under (src/encoder.rs lines 97-101). -/
def keyOf (r : EncodeResult) : CacheKey :=
  ⟨r.index, r.width, r.height⟩

/-- `ImageEncoder` from src/encoder.rs lines 33-41.  The two mpsc channels
are modelled as explicit FIFO queues: `reqQueue` holds requests sent to the
worker and not yet processed, `resQueue` holds results produced by the worker
and not yet drained.  `cache` models the `HashMap<CacheKey, StatefulProtocol>`
and `pending` the key set of `HashMap<CacheKey, bool>`. -/
structure ImageEncoder where
  cache : List (CacheKey × Nat)
  pending : List CacheKey
  reqQueue : List EncodeRequest
  resQueue : List EncodeResult
deriving DecidableEq, Repr

/-- HashMap insertion: the new binding replaces any previous binding of the
same key (so `cache_len` counts distinct keys, as `HashMap::len` does). -/
def mapInsert (m : List (CacheKey × Nat)) (k : CacheKey) (v : Nat) :
    List (CacheKey × Nat) :=
  (k, v) :: m.filter (fun p => ¬(p.1 = k))

/-- `ImageEncoder::request_encode`, src/encoder.rs lines 71-92. -/
def request_encode (e : ImageEncoder) (index image width height : Nat) :
    ImageEncoder :=
  let key : CacheKey := ⟨index, width, height⟩
  if (e.cache.lookup key).isSome || e.pending.contains key then e
  else
    { e with
      pending := key :: e.pending
      reqQueue := e.reqQueue ++ [⟨index, image, width, height⟩] }

/-- One iteration of the worker loop, src/encoder.rs lines 48-59: receive a
request, encode it, send the result. A no-op when the request queue is
empty (the worker blocks). -/
def workerStep (e : ImageEncoder) : ImageEncoder :=
  match e.reqQueue with
  | [] => e
  | r :: rest =>
      { e with
        reqQueue := rest
        resQueue := e.resQueue ++
          [⟨r.index, r.width, r.height, Picker.newResizeProtocol r.image⟩] }

/-- The drain loop body of `poll_results`, src/encoder.rs lines 96-104:
for each received result, remove its key from `pending` and insert the
protocol into `cache`. -/
def drainResults (cache : List (CacheKey × Nat)) (pending : List CacheKey) :
    List EncodeResult → List (CacheKey × Nat) × List CacheKey
  | [] => (cache, pending)
  | r :: rest =>
      drainResults (mapInsert cache (keyOf r) r.protocol)
        (pending.filter (fun k => ¬(k = keyOf r))) rest

/-- `ImageEncoder::poll_results`, src/encoder.rs lines 95-105: drain every
currently available result. -/
def poll_results (e : ImageEncoder) : ImageEncoder :=
  let cp := drainResults e.cache e.pending e.resQueue
  { cache := cp.1, pending := cp.2, reqQueue := e.reqQueue, resQueue := [] }

/-- `ImageEncoder::get_cached`, src/encoder.rs lines 108-111. -/
def get_cached (e : ImageEncoder) (index width height : Nat) : Option Nat :=
  e.cache.lookup ⟨index, width, height⟩

/-- `ImageEncoder::clear_cache`, src/encoder.rs lines 114-117: clears cache
and pending; the channel queues are untouched. -/
def clear_cache (e : ImageEncoder) : ImageEncoder :=
  { e with cache := [], pending := [] }

/-- `ImageEncoder::cache_len`, src/encoder.rs lines 120-122. -/
def cache_len (e : ImageEncoder) : Nat :=
  e.cache.length

/-- Whether a key is tracked (Present or Pending), the guard of
src/encoder.rs line 81. -/
def tracked (e : ImageEncoder) (key : CacheKey) : Prop :=
  (e.cache.lookup key).isSome = true ∨ e.pending.contains key = true

instance (e : ImageEncoder) (key : CacheKey) : Decidable (tracked e key) := by
  unfold tracked; infer_instance

/-- Number of jobs for a given key sitting in the request queue. -/
def jobsForKey (key : CacheKey) (q : List EncodeRequest) : Nat :=
  (q.filter (fun r => r.index = key.index ∧ r.width = key.width ∧
    r.height = key.height)).length

/-- The fresh encoder state built by `ImageEncoder::new`
(src/encoder.rs lines 44-68): empty cache, empty pending, empty queues. -/
def initEncoder : ImageEncoder := ⟨[], [], [], []⟩

theorem request_encode_tracked (e : ImageEncoder) (i im w h : Nat)
    (ht : tracked e ⟨i, w, h⟩) : request_encode e i im w h = e := by
  unfold request_encode
  dsimp only
  split
  · rfl
  · rename_i hcond
    rcases ht with ht | ht
    · simp [ht] at hcond
    · simp only [Bool.or_eq_true, not_or, Bool.not_eq_true] at hcond
      rw [ht] at hcond
      exact absurd hcond.2 (by decide)

theorem request_encode_untracked (e : ImageEncoder) (i im w h : Nat)
    (ht : ¬ tracked e ⟨i, w, h⟩) :
    request_encode e i im w h =
      { e with pending := ⟨i, w, h⟩ :: e.pending
               reqQueue := e.reqQueue ++ [⟨i, im, w, h⟩] } := by
  unfold tracked at ht
  push_neg at ht
  simp only [Bool.not_eq_true] at ht
  unfold request_encode
  dsimp only
  split
  · rename_i hcond
    rw [ht.1, ht.2] at hcond
    exact absurd hcond (by decide)
  · rfl

theorem jobsForKey_append (key : CacheKey) (q1 q2 : List EncodeRequest) :
    jobsForKey key (q1 ++ q2) = jobsForKey key q1 + jobsForKey key q2 := by
  unfold jobsForKey
  rw [List.filter_append, List.length_append]

/-- C1: `request_encode` is a no-op on a Present-or-Pending key; on an
untracked key it marks the key Pending and appends exactly one job to the
request queue; and two `request_encode` calls with an identical key before
any `poll_results`, starting from a state with no job for that key in the
queue, leave exactly one job for that key in the queue. -/
theorem request_encode_dedup (e : ImageEncoder) (i im im2 w h : Nat) :
    (tracked e ⟨i, w, h⟩ → request_encode e i im w h = e) ∧
    (¬ tracked e ⟨i, w, h⟩ →
      (request_encode e i im w h).pending = ⟨i, w, h⟩ :: e.pending ∧
      (request_encode e i im w h).reqQueue = e.reqQueue ++ [⟨i, im, w, h⟩]) ∧
    (¬ tracked e ⟨i, w, h⟩ → jobsForKey ⟨i, w, h⟩ e.reqQueue = 0 →
      jobsForKey ⟨i, w, h⟩
        (request_encode (request_encode e i im w h) i im2 w h).reqQueue = 1) := by
  refine ⟨fun ht => request_encode_tracked e i im w h ht, fun ht => ?_, ?_⟩
  · rw [request_encode_untracked e i im w h ht]
    exact ⟨rfl, rfl⟩
  · intro ht h0
    have h1 := request_encode_untracked e i im w h ht
    have h2 : tracked (request_encode e i im w h) ⟨i, w, h⟩ := by
      rw [h1]; right; simp
    rw [request_encode_tracked _ i im2 w h h2, h1, jobsForKey_append, h0]
    unfold jobsForKey
    simp

/-- Witness for C1 at a concrete state: two requests for key (3,100,50) on a
fresh encoder leave exactly one job in the queue. -/
theorem request_encode_dedup_witness :
    jobsForKey ⟨3, 100, 50⟩
      (request_encode (request_encode initEncoder 3 5 100 50) 3 6 100 50).reqQueue
      = 1 :=
  (request_encode_dedup initEncoder 3 5 6 100 50).2.2 (by decide) (by decide)

theorem lookup_filter_ne (c : List (CacheKey × Nat)) (k k0 : CacheKey)
    (hne : k ≠ k0) :
    (c.filter (fun p => ¬(p.1 = k0))).lookup k = c.lookup k := by
  induction c with
  | nil => rfl
  | cons p rest ih =>
      rcases p with ⟨a, b⟩
      rw [List.filter_cons]
      by_cases hp : a = k0
      · rw [if_neg (by simp [hp])]
        rw [ih]
        have hka : ¬(k = a) := by rw [hp]; exact hne
        have hb : (k == a) = false := by simp [hka]
        simp only [List.lookup, hb]
      · rw [if_pos (by simp [hp])]
        cases hb : (k == a) with
        | true => simp only [List.lookup, hb]
        | false => simp only [List.lookup, hb]; exact ih

theorem lookup_mapInsert_self (c : List (CacheKey × Nat)) (k : CacheKey)
    (v : Nat) : (mapInsert c k v).lookup k = some v := by
  unfold mapInsert
  simp [List.lookup]

theorem lookup_mapInsert_ne (c : List (CacheKey × Nat)) (k k0 : CacheKey)
    (v : Nat) (hne : k ≠ k0) :
    (mapInsert c k0 v).lookup k = c.lookup k := by
  unfold mapInsert
  have hb : (k == k0) = false := by simp [hne]
  simp only [List.lookup, hb]
  exact lookup_filter_ne c k k0 hne

theorem contains_iff_mem (l : List CacheKey) (k : CacheKey) :
    l.contains k = true ↔ k ∈ l := by
  simp [List.contains, List.elem_iff]

theorem untracked_parts (e : ImageEncoder) (k : CacheKey)
    (h : ¬ tracked e k) :
    (e.cache.lookup k).isSome = false ∧ e.pending.contains k = false := by
  unfold tracked at h
  push_neg at h
  simp only [Bool.not_eq_true] at h
  exact h

theorem drain_cache_isSome_mono (res : List EncodeResult)
    (cache : List (CacheKey × Nat)) (pending : List CacheKey) (k : CacheKey)
    (h : (cache.lookup k).isSome = true) :
    ((drainResults cache pending res).1.lookup k).isSome = true := by
  induction res generalizing cache pending with
  | nil => exact h
  | cons r rest ih =>
      simp only [drainResults]
      apply ih
      by_cases hk : k = keyOf r
      · rw [hk, lookup_mapInsert_self]; rfl
      · rw [lookup_mapInsert_ne _ _ _ _ hk]; exact h

theorem drain_mem_isSome (res : List EncodeResult)
    (cache : List (CacheKey × Nat)) (pending : List CacheKey)
    (r : EncodeResult) (hr : r ∈ res) :
    ((drainResults cache pending res).1.lookup (keyOf r)).isSome = true := by
  induction res generalizing cache pending with
  | nil => cases hr
  | cons r0 rest ih =>
      simp only [drainResults]
      rcases List.mem_cons.mp hr with hEq | hm
      · subst hEq
        apply drain_cache_isSome_mono
        rw [lookup_mapInsert_self]; rfl
      · exact ih _ _ hm

theorem drain_lookup_notin (res : List EncodeResult)
    (cache : List (CacheKey × Nat)) (pending : List CacheKey) (k : CacheKey)
    (hno : ∀ r ∈ res, ¬(keyOf r = k)) :
    (drainResults cache pending res).1.lookup k = cache.lookup k := by
  induction res generalizing cache pending with
  | nil => rfl
  | cons r rest ih =>
      simp only [drainResults]
      rw [ih _ _ (fun r' hr' => hno r' (List.mem_cons_of_mem r hr'))]
      have hk : ¬(k = keyOf r) := fun hEq =>
        hno r (List.mem_cons_self r rest) hEq.symm
      exact lookup_mapInsert_ne _ _ _ _ hk

theorem drain_pending_subset (res : List EncodeResult)
    (cache : List (CacheKey × Nat)) (pending : List CacheKey) (k : CacheKey)
    (h : k ∈ (drainResults cache pending res).2) : k ∈ pending := by
  induction res generalizing cache pending with
  | nil => exact h
  | cons r rest ih =>
      simp only [drainResults] at h
      exact List.mem_of_mem_filter (ih _ _ h)

theorem drain_pending_mem (res : List EncodeResult)
    (cache : List (CacheKey × Nat)) (pending : List CacheKey) (k : CacheKey)
    (hm : k ∈ pending) (hno : ∀ r ∈ res, ¬(keyOf r = k)) :
    k ∈ (drainResults cache pending res).2 := by
  induction res generalizing cache pending with
  | nil => exact hm
  | cons r rest ih =>
      simp only [drainResults]
      apply ih
      · refine List.mem_filter.mpr ⟨hm, ?_⟩
        have : ¬(k = keyOf r) := fun hEq =>
          hno r (List.mem_cons_self r rest) hEq.symm
        simpa using this
      · exact fun r' hr' => hno r' (List.mem_cons_of_mem r hr')

theorem drain_disj (res : List EncodeResult)
    (cache : List (CacheKey × Nat)) (pending : List CacheKey)
    (h : ∀ k, ¬((cache.lookup k).isSome = true ∧ k ∈ pending)) :
    ∀ k, ¬(((drainResults cache pending res).1.lookup k).isSome = true ∧
      k ∈ (drainResults cache pending res).2) := by
  induction res generalizing cache pending with
  | nil => exact h
  | cons r rest ih =>
      simp only [drainResults]
      apply ih
      rintro k ⟨hsome, hmem⟩
      have hmem' := List.mem_of_mem_filter hmem
      have hne : ¬(k = keyOf r) := by
        have := List.of_mem_filter hmem
        simpa using this
      rw [lookup_mapInsert_ne _ _ _ _ hne] at hsome
      exact h k ⟨hsome, hmem'⟩

/-- The operations the render thread performs on the encoder (request /
poll / clear), plus the asynchronous worker step, as trace elements. -/
inductive EncOp where
  | request (index image width height : Nat)
  | work
  | poll
  | clear
deriving DecidableEq, Repr

/-- Apply one operation to an encoder state. -/
def applyOp (e : ImageEncoder) : EncOp → ImageEncoder
  | .request i im w h => request_encode e i im w h
  | .work => workerStep e
  | .poll => poll_results e
  | .clear => clear_cache e

/-- Run a trace of operations from the fresh encoder state. -/
def runOps (ops : List EncOp) : ImageEncoder :=
  ops.foldl applyOp initEncoder

/-- The three per-key states of the spec: absent / pending / present. -/
inductive KeyState where
  | absent
  | pending
  | present
deriving DecidableEq, Repr

/-- Per-key state read off an encoder state: Present if the cache holds the
key, else Pending if the key is marked in-flight, else Absent. -/
def keyState (e : ImageEncoder) (k : CacheKey) : KeyState :=
  if (e.cache.lookup k).isSome then .present
  else if e.pending.contains k then .pending
  else .absent

theorem keyState_present_iff (e : ImageEncoder) (k : CacheKey) :
    keyState e k = KeyState.present ↔ (e.cache.lookup k).isSome = true := by
  unfold keyState
  by_cases h1 : (e.cache.lookup k).isSome = true
  · simp [h1, contains_iff_mem]
  · by_cases h2 : k ∈ e.pending
    · simp [h1, h2, contains_iff_mem]
    · simp [h1, h2, contains_iff_mem]

theorem keyState_pending_iff (e : ImageEncoder) (k : CacheKey) :
    keyState e k = KeyState.pending ↔
      (e.cache.lookup k).isSome = false ∧ e.pending.contains k = true := by
  unfold keyState
  by_cases h1 : (e.cache.lookup k).isSome = true
  · simp [h1, contains_iff_mem]
  · by_cases h2 : k ∈ e.pending
    · simp [h1, h2, contains_iff_mem]
    · simp [h1, h2, contains_iff_mem]

theorem keyState_absent_iff (e : ImageEncoder) (k : CacheKey) :
    keyState e k = KeyState.absent ↔
      (e.cache.lookup k).isSome = false ∧ e.pending.contains k = false := by
  unfold keyState
  by_cases h1 : (e.cache.lookup k).isSome = true
  · simp [h1, contains_iff_mem]
  · by_cases h2 : k ∈ e.pending
    · simp [h1, h2, contains_iff_mem]
    · simp [h1, h2, contains_iff_mem]

theorem request_encode_cache (e : ImageEncoder) (i im w h : Nat) :
    (request_encode e i im w h).cache = e.cache := by
  unfold request_encode
  dsimp only
  split <;> rfl

theorem request_encode_pending_mem (e : ImageEncoder) (i im w h : Nat)
    (k : CacheKey) (hm : k ∈ e.pending) :
    k ∈ (request_encode e i im w h).pending := by
  unfold request_encode
  dsimp only
  split
  · exact hm
  · exact List.mem_cons_of_mem _ hm

theorem workerStep_cache (e : ImageEncoder) :
    (workerStep e).cache = e.cache := by
  rcases he : e.reqQueue with _ | ⟨r, rest⟩ <;> simp [workerStep, he]

theorem workerStep_pending (e : ImageEncoder) :
    (workerStep e).pending = e.pending := by
  rcases he : e.reqQueue with _ | ⟨r, rest⟩ <;> simp [workerStep, he]

theorem keyState_clear (e : ImageEncoder) (k : CacheKey) :
    keyState (clear_cache e) k = KeyState.absent := rfl

theorem keyState_present_step (e : ImageEncoder) (k : CacheKey) (o : EncOp)
    (h : keyState e k = KeyState.present) :
    keyState (applyOp e o) k = KeyState.present ∨ o = EncOp.clear := by
  cases o with
  | request i im w hh =>
      left
      rw [keyState_present_iff] at h ⊢
      show ((request_encode e i im w hh).cache.lookup k).isSome = true
      rw [request_encode_cache]
      exact h
  | work =>
      left
      rw [keyState_present_iff] at h ⊢
      show ((workerStep e).cache.lookup k).isSome = true
      rw [workerStep_cache]
      exact h
  | poll =>
      left
      rw [keyState_present_iff] at h ⊢
      exact drain_cache_isSome_mono e.resQueue e.cache e.pending k h
  | clear => right; rfl

theorem keyState_pending_step (e : ImageEncoder) (k : CacheKey) (o : EncOp)
    (h : keyState e k = KeyState.pending) :
    keyState (applyOp e o) k = KeyState.pending ∨
    (o = EncOp.clear ∧ keyState (applyOp e o) k = KeyState.absent) ∨
    (o = EncOp.poll ∧ keyState (applyOp e o) k = KeyState.present) := by
  rw [keyState_pending_iff] at h
  obtain ⟨hs, hc⟩ := h
  have hmem : k ∈ e.pending := (contains_iff_mem _ _).mp hc
  cases o with
  | request i im w hh =>
      left
      rw [keyState_pending_iff]
      constructor
      · show ((request_encode e i im w hh).cache.lookup k).isSome = false
        rw [request_encode_cache]
        exact hs
      · exact (contains_iff_mem _ _).mpr
          (request_encode_pending_mem e i im w hh k hmem)
  | work =>
      left
      rw [keyState_pending_iff]
      constructor
      · show ((workerStep e).cache.lookup k).isSome = false
        rw [workerStep_cache]
        exact hs
      · show ((workerStep e).pending.contains k) = true
        rw [workerStep_pending]
        exact hc
  | poll =>
      by_cases hex : ∃ r ∈ e.resQueue, keyOf r = k
      · right; right
        refine ⟨rfl, ?_⟩
        rw [keyState_present_iff]
        obtain ⟨r, hr, hkr⟩ := hex
        have := drain_mem_isSome e.resQueue e.cache e.pending r hr
        rw [hkr] at this
        exact this
      · left
        push_neg at hex
        rw [keyState_pending_iff]
        constructor
        · show ((drainResults e.cache e.pending e.resQueue).1.lookup k).isSome
            = false
          rw [drain_lookup_notin e.resQueue e.cache e.pending k hex]
          exact hs
        · exact (contains_iff_mem _ _).mpr
            (drain_pending_mem e.resQueue e.cache e.pending k hmem hex)
  | clear =>
      right; left
      exact ⟨rfl, keyState_clear e k⟩

theorem contains_eq_false_iff (l : List CacheKey) (k : CacheKey) :
    l.contains k = false ↔ ¬(k ∈ l) := by
  rw [← contains_iff_mem]
  simp

theorem keyState_absent_step (e : ImageEncoder) (k : CacheKey) (o : EncOp)
    (h : keyState e k = KeyState.absent) :
    keyState (applyOp e o) k = KeyState.absent ∨
    ((∃ im, o = EncOp.request k.index im k.width k.height) ∧
      keyState (applyOp e o) k = KeyState.pending) ∨
    (o = EncOp.poll ∧ keyState (applyOp e o) k = KeyState.present) := by
  rw [keyState_absent_iff] at h
  obtain ⟨hs, hc⟩ := h
  have hnmem : ¬(k ∈ e.pending) := (contains_eq_false_iff _ _).mp hc
  cases o with
  | request i im w hh =>
      by_cases hk : (⟨i, w, hh⟩ : CacheKey) = k
      · right; left
        have huntr : ¬ tracked e ⟨i, w, hh⟩ := by
          rw [hk]
          unfold tracked
          rw [hs, hc]
          simp
        constructor
        · exact ⟨im, by rw [← hk]⟩
        · rw [keyState_pending_iff]
          constructor
          · show ((request_encode e i im w hh).cache.lookup k).isSome = false
            rw [request_encode_cache]
            exact hs
          · show (request_encode e i im w hh).pending.contains k = true
            rw [request_encode_untracked e i im w hh huntr]
            exact (contains_iff_mem _ _).mpr
              (List.mem_cons.mpr (Or.inl hk.symm))
      · left
        by_cases htr : tracked e ⟨i, w, hh⟩
        · show keyState (request_encode e i im w hh) k = KeyState.absent
          rw [request_encode_tracked e i im w hh htr, keyState_absent_iff]
          exact ⟨hs, hc⟩
        · show keyState (request_encode e i im w hh) k = KeyState.absent
          rw [request_encode_untracked e i im w hh htr, keyState_absent_iff]
          constructor
          · exact hs
          · apply (contains_eq_false_iff _ _).mpr
            rw [List.mem_cons]
            push_neg
            exact ⟨fun hEq => hk hEq.symm, hnmem⟩
  | work =>
      left
      rw [keyState_absent_iff]
      constructor
      · show ((workerStep e).cache.lookup k).isSome = false
        rw [workerStep_cache]
        exact hs
      · show (workerStep e).pending.contains k = false
        rw [workerStep_pending]
        exact hc
  | poll =>
      by_cases hex : ∃ r ∈ e.resQueue, keyOf r = k
      · right; right
        refine ⟨rfl, ?_⟩
        rw [keyState_present_iff]
        obtain ⟨r, hr, hkr⟩ := hex
        have := drain_mem_isSome e.resQueue e.cache e.pending r hr
        rw [hkr] at this
        exact this
      · left
        push_neg at hex
        rw [keyState_absent_iff]
        constructor
        · show ((drainResults e.cache e.pending e.resQueue).1.lookup k).isSome
            = false
          rw [drain_lookup_notin e.resQueue e.cache e.pending k hex]
          exact hs
        · apply (contains_eq_false_iff _ _).mpr
          intro hmem
          exact hnmem (drain_pending_subset e.resQueue e.cache e.pending k hmem)
  | clear =>
      left
      exact keyState_clear e k

theorem disj_applyOp (e : ImageEncoder) (o : EncOp)
    (h : ∀ k, ¬(((e.cache.lookup k).isSome = true) ∧ k ∈ e.pending)) :
    ∀ k, ¬((((applyOp e o).cache.lookup k).isSome = true) ∧
      k ∈ (applyOp e o).pending) := by
  cases o with
  | request i im w hh =>
      intro k hk
      rcases hk with ⟨hsome, hmem⟩
      by_cases htr : tracked e ⟨i, w, hh⟩
      · rw [show applyOp e (EncOp.request i im w hh) =
            request_encode e i im w hh from rfl,
          request_encode_tracked e i im w hh htr] at hsome hmem
        exact h k ⟨hsome, hmem⟩
      · rw [show applyOp e (EncOp.request i im w hh) =
            request_encode e i im w hh from rfl,
          request_encode_untracked e i im w hh htr] at hsome hmem
        dsimp only at hsome hmem
        rcases List.mem_cons.mp hmem with hEq | hm
        · have hparts := untracked_parts e ⟨i, w, hh⟩ htr
          rw [hEq, hparts.1] at hsome
          exact absurd hsome Bool.false_ne_true
        · exact h k ⟨hsome, hm⟩
  | work =>
      intro k hk
      rcases hk with ⟨hsome, hmem⟩
      rw [show applyOp e EncOp.work = workerStep e from rfl] at hsome hmem
      rw [workerStep_cache] at hsome
      rw [workerStep_pending] at hmem
      exact h k ⟨hsome, hmem⟩
  | poll =>
      intro k hk
      exact drain_disj e.resQueue e.cache e.pending h k hk
  | clear =>
      intro k hk
      exact absurd hk.2 (List.not_mem_nil k)

theorem disj_runOps (ops : List EncOp) :
    ∀ k, ¬((((runOps ops).cache.lookup k).isSome = true) ∧
      k ∈ (runOps ops).pending) := by
  suffices haux : ∀ (l : List EncOp) (e : ImageEncoder),
      (∀ k, ¬(((e.cache.lookup k).isSome = true) ∧ k ∈ e.pending)) →
      ∀ k, ¬((((l.foldl applyOp e).cache.lookup k).isSome = true) ∧
        k ∈ (l.foldl applyOp e).pending) by
    exact haux ops initEncoder (fun k hk => absurd hk.2 (List.not_mem_nil k))
  intro l
  induction l with
  | nil => intro e he; exact he
  | cons o rest ih =>
      intro e he
      exact ih _ (disj_applyOp e o he)

/-- C2 (amended): for every reachable encoder state, no key is
simultaneously Pending and Present; a Present key stays Present under every
operation except the global clear; a Pending key either stays Pending,
becomes Absent via clear, or becomes Present via a poll that drains its
result; an Absent key either stays Absent, becomes Pending via a cache-miss
request for exactly that key, or — the amendment — becomes Present directly
via a poll that drains a stale result whose Pending marker a clear had
already removed. -/
theorem encoder_state_machine (ops : List EncOp) (o : EncOp) (k : CacheKey) :
    (¬((((runOps ops).cache.lookup k).isSome = true) ∧
      k ∈ (runOps ops).pending)) ∧
    (keyState (runOps ops) k = KeyState.present →
      keyState (applyOp (runOps ops) o) k = KeyState.present ∨
      o = EncOp.clear) ∧
    (keyState (runOps ops) k = KeyState.pending →
      keyState (applyOp (runOps ops) o) k = KeyState.pending ∨
      (o = EncOp.clear ∧
        keyState (applyOp (runOps ops) o) k = KeyState.absent) ∨
      (o = EncOp.poll ∧
        keyState (applyOp (runOps ops) o) k = KeyState.present)) ∧
    (keyState (runOps ops) k = KeyState.absent →
      keyState (applyOp (runOps ops) o) k = KeyState.absent ∨
      ((∃ im, o = EncOp.request k.index im k.width k.height) ∧
        keyState (applyOp (runOps ops) o) k = KeyState.pending) ∨
      (o = EncOp.poll ∧
        keyState (applyOp (runOps ops) o) k = KeyState.present)) :=
  ⟨disj_runOps ops k, keyState_present_step (runOps ops) k o,
    keyState_pending_step (runOps ops) k o,
    keyState_absent_step (runOps ops) k o⟩

/-- Witness for C2 at a concrete trace: after a single request, key
(3,100,50) is Pending, and a poll that drains its (already produced)
result moves it to Present. -/
theorem encoder_state_machine_witness :
    keyState (applyOp (runOps [EncOp.request 3 5 100 50, EncOp.work])
      EncOp.poll) ⟨3, 100, 50⟩ = KeyState.pending ∨
    (EncOp.poll = EncOp.clear ∧
      keyState (applyOp (runOps [EncOp.request 3 5 100 50, EncOp.work])
        EncOp.poll) ⟨3, 100, 50⟩ = KeyState.absent) ∨
    (EncOp.poll = EncOp.poll ∧
      keyState (applyOp (runOps [EncOp.request 3 5 100 50, EncOp.work])
        EncOp.poll) ⟨3, 100, 50⟩ = KeyState.present) :=
  (encoder_state_machine [EncOp.request 3 5 100 50, EncOp.work]
    EncOp.poll ⟨3, 100, 50⟩).2.2.1 (by decide)

/-- Counterexample to C2 as stated: on the reachable state produced by
request(3,100,50) → worker completes → clear, the key (3,100,50) is Absent,
yet draining the stale result with poll_results moves it directly to
Present — a transition other than absent→pending, pending→present and
present→absent. -/
theorem encoder_state_machine_cex :
    keyState (runOps [EncOp.request 3 5 100 50, EncOp.work, EncOp.clear])
      ⟨3, 100, 50⟩ = KeyState.absent ∧
    keyState (applyOp
      (runOps [EncOp.request 3 5 100 50, EncOp.work, EncOp.clear])
      EncOp.poll) ⟨3, 100, 50⟩ = KeyState.present := by
  decide

/-- C3 (amended): immediately after `clear_cache`, every lookup misses and
the cache length is 0; but results of jobs that were already in the result
queue before the clear are NOT discarded when later drained — `poll_results`
inserts them, and their keys become Present entries. -/
theorem clear_cache_spec (e : ImageEncoder) :
    (∀ i w h, get_cached (clear_cache e) i w h = none) ∧
    cache_len (clear_cache e) = 0 ∧
    (∀ r ∈ e.resQueue,
      (get_cached (poll_results (clear_cache e))
        r.index r.width r.height).isSome = true) := by
  refine ⟨fun i w h => rfl, rfl, fun r hr => ?_⟩
  exact drain_mem_isSome e.resQueue [] [] r hr

/-- Witness for C3 at a concrete state with one undrained result. -/
theorem clear_cache_spec_witness :
    (get_cached (poll_results (clear_cache
      ⟨[], [⟨3, 100, 50⟩], [], [⟨3, 100, 50, 5⟩]⟩)) 3 100 50).isSome = true :=
  (clear_cache_spec ⟨[], [⟨3, 100, 50⟩], [], [⟨3, 100, 50, 5⟩]⟩).2.2
    ⟨3, 100, 50, 5⟩ (by decide)

/-- Counterexample to C3 as stated: a job enqueued before the clear is not
ignored on arrival — after request(3,100,50), worker completion, clear, and
one poll_results, the key (3,100,50) is a Present entry again (with the
stale protocol), and the cache length is 1, not 0. -/
theorem clear_stale_result_cex :
    get_cached (poll_results (clear_cache (workerStep
      (request_encode initEncoder 3 5 100 50)))) 3 100 50 = some 5 ∧
    cache_len (poll_results (clear_cache (workerStep
      (request_encode initEncoder 3 5 100 50)))) = 1 := by
  decide

end Encoder

namespace App

/-- `Wallpaper` from src/wallpaper.rs lines 8-12; the decoded thumbnail is
modelled as an opaque `Nat`, strings as character lists. -/
structure Wallpaper where
  path : List Char
  name : List Char
  thumbnail : Option Nat
deriving DecidableEq, Repr

/-- The fields of `App` (src/app.rs lines 16-33) that the selection /
filter / apply logic reads and writes: the catalog, the filtered view,
the selection index, the column count written back by the grid, the
search query, and the current-wallpaper pointer.  The remaining fields
(mode, terminal/picker handles, encoder, completion state) do not enter
the claims settled here. -/
structure NavState where
  wallpapers : List Wallpaper
  filtered_indices : List Nat
  selected : Nat
  columns : Nat
  search_query : List Char
  current_wallpaper : Option (List Char)
deriving DecidableEq, Repr

/-- The filtered view recomputed by `App::update_filter`
(src/app.rs lines 88-99): all indices when the lowercased query is empty,
else the indices whose lowercased name contains the query as a substring
(Rust `str::contains`, i.e. infix of the character sequence). -/
def computeFiltered (s : NavState) : List Nat :=
  let query := s.search_query.map Char.toLower
  if query.isEmpty then List.range s.wallpapers.length
  else
    ((s.wallpapers.enum.filter
      (fun p => query <:+: p.2.name.map Char.toLower)).map (fun p => p.1))

/-- `App::update_filter`, src/app.rs lines 87-104: recompute the filtered
view, then reset the selection to 0 if it is out of bounds. -/
def update_filter (s : NavState) : NavState :=
  let f := computeFiltered s
  { s with
    filtered_indices := f
    selected := if s.selected ≥ f.length then 0 else s.selected }

/-- `App::move_up`, src/app.rs lines 307-311. -/
def move_up (s : NavState) : NavState :=
  if s.selected ≥ s.columns then { s with selected := s.selected - s.columns }
  else s

/-- `App::move_down`, src/app.rs lines 313-318. -/
def move_down (s : NavState) : NavState :=
  let new_pos := s.selected + s.columns
  if new_pos < s.filtered_indices.length then { s with selected := new_pos }
  else s

/-- `App::move_left`, src/app.rs lines 320-324. -/
def move_left (s : NavState) : NavState :=
  if s.selected > 0 then { s with selected := s.selected - 1 } else s

/-- `App::move_right`, src/app.rs lines 326-330. -/
def move_right (s : NavState) : NavState :=
  if s.selected + 1 < s.filtered_indices.length then
    { s with selected := s.selected + 1 }
  else s

/-- `App::search_input`, src/app.rs lines 110-113: push a character onto
the query, then re-filter. -/
def search_input (s : NavState) (c : Char) : NavState :=
  update_filter { s with search_query := s.search_query ++ [c] }

/-- `App::search_backspace`, src/app.rs lines 115-118: pop the last query
character, then re-filter. -/
def search_backspace (s : NavState) : NavState :=
  update_filter { s with search_query := s.search_query.dropLast }

/-- `App::cancel_search`, src/app.rs lines 124-128: clear the query and
re-filter (the mode change is outside this model). -/
def cancel_search (s : NavState) : NavState :=
  update_filter { s with search_query := [] }

/-- `App::reload_wallpapers`, src/app.rs lines 288-295: replace the catalog
with a freshly discovered one (passed in, since discovery is external I/O),
re-filter, and reset the selection to 0.  The encoder-cache clear it also
performs lives in the `Encoder` model. -/
def reload_wallpapers (s : NavState) (ws : List Wallpaper) : NavState :=
  let s1 := update_filter { s with wallpapers := ws }
  { s1 with selected := 0 }

/-- The mutations of the selection/filter state reachable from the key
handler (src/main.rs lines 114-140): the four moves, query edits, query
cancel, and catalog reload. -/
inductive NavOp where
  | up
  | down
  | left
  | right
  | input (c : Char)
  | backspace
  | cancel
  | reload (ws : List Wallpaper)
deriving Repr

/-- Apply one navigation operation. -/
def navStep (s : NavState) : NavOp → NavState
  | .up => move_up s
  | .down => move_down s
  | .left => move_left s
  | .right => move_right s
  | .input c => search_input s c
  | .backspace => search_backspace s
  | .cancel => cancel_search s
  | .reload ws => reload_wallpapers s ws

/-- The selection-index invariant the code actually maintains: within
bounds whenever the filtered view is nonempty, and pinned to 0 when the
filtered view is empty. -/
def SelInv (s : NavState) : Prop :=
  (s.filtered_indices.length = 0 → s.selected = 0) ∧
  (0 < s.filtered_indices.length → s.selected < s.filtered_indices.length)

instance (s : NavState) : Decidable (SelInv s) := by
  unfold SelInv; infer_instance

theorem update_filter_selinv (s : NavState) : SelInv (update_filter s) := by
  unfold SelInv update_filter
  dsimp only
  by_cases hge : s.selected ≥ (computeFiltered s).length
  · rw [if_pos hge]
    exact ⟨fun _ => rfl, fun hlen => hlen⟩
  · rw [if_neg hge]
    push_neg at hge
    exact ⟨fun h0 => by omega, fun _ => hge⟩

theorem move_up_selinv (s : NavState) (h : SelInv s) : SelInv (move_up s) := by
  obtain ⟨h0, h1⟩ := h
  unfold SelInv move_up
  by_cases hc : s.selected ≥ s.columns
  · rw [if_pos hc]
    dsimp only
    refine ⟨fun hlen => ?_, fun hlen => ?_⟩
    · rw [h0 hlen]; omega
    · have := h1 hlen; omega
  · rw [if_neg hc]
    exact ⟨h0, h1⟩

theorem move_down_selinv (s : NavState) (h : SelInv s) :
    SelInv (move_down s) := by
  obtain ⟨h0, h1⟩ := h
  unfold SelInv move_down
  dsimp only
  by_cases hc : s.selected + s.columns < s.filtered_indices.length
  · rw [if_pos hc]
    dsimp only
    exact ⟨fun hlen => by omega, fun _ => hc⟩
  · rw [if_neg hc]
    exact ⟨h0, h1⟩

theorem move_left_selinv (s : NavState) (h : SelInv s) :
    SelInv (move_left s) := by
  obtain ⟨h0, h1⟩ := h
  unfold SelInv move_left
  by_cases hc : s.selected > 0
  · rw [if_pos hc]
    dsimp only
    refine ⟨fun hlen => ?_, fun hlen => ?_⟩
    · rw [h0 hlen]
    · have := h1 hlen; omega
  · rw [if_neg hc]
    exact ⟨h0, h1⟩

theorem move_right_selinv (s : NavState) (h : SelInv s) :
    SelInv (move_right s) := by
  obtain ⟨h0, h1⟩ := h
  unfold SelInv move_right
  by_cases hc : s.selected + 1 < s.filtered_indices.length
  · rw [if_pos hc]
    dsimp only
    exact ⟨fun hlen => by omega, fun _ => hc⟩
  · rw [if_neg hc]
    exact ⟨h0, h1⟩

theorem reload_selinv (s : NavState) (ws : List Wallpaper) :
    SelInv (reload_wallpapers s ws) := by
  unfold SelInv reload_wallpapers
  dsimp only
  exact ⟨fun _ => rfl, fun hlen => hlen⟩

theorem navStep_selinv (s : NavState) (h : SelInv s) (op : NavOp) :
    SelInv (navStep s op) := by
  cases op with
  | up => exact move_up_selinv s h
  | down => exact move_down_selinv s h
  | left => exact move_left_selinv s h
  | right => exact move_right_selinv s h
  | input c => exact update_filter_selinv _
  | backspace => exact update_filter_selinv _
  | cancel => exact update_filter_selinv _
  | reload ws => exact reload_selinv s ws

/-- C6 (amended): after any mutation (movement, filter-query change,
catalog reload), the selection index is within [0, filtered-view-length)
whenever the filtered view is nonempty and is 0 when the view is empty;
and on a filter-query change the selection becomes 0 exactly when it is
≥ the new filtered length, being preserved otherwise. -/
theorem selection_bounds (s : NavState) (op : NavOp) (c : Char)
    (h : SelInv s) :
    SelInv (navStep s op) ∧
    (navStep s (NavOp.input c)).selected =
      (if s.selected ≥
          (computeFiltered
            { s with search_query := s.search_query ++ [c] }).length
        then 0 else s.selected) :=
  ⟨navStep_selinv s h op, rfl⟩

/-- Witness for C6 at a concrete in-bounds state. -/
theorem selection_bounds_witness :
    SelInv (navStep ⟨[⟨['p'], ['a'], none⟩], [0], 0, 4, [], none⟩
      NavOp.down) :=
  (selection_bounds ⟨[⟨['p'], ['a'], none⟩], [0], 0, 4, [], none⟩
    NavOp.down 'z' (by decide)).1

/-- Counterexample to C6 as stated: typing 'z' with a one-item catalog
named "a" empties the filtered view; update_filter resets the selection to
0, but 0 does not lie in the empty range [0, 0), so the index is not always
inside [0, filtered-view-length). -/
theorem selection_bounds_cex :
    (search_input ⟨[⟨['p'], ['a'], none⟩], [0], 0, 4, [], none⟩
      'z').filtered_indices.length = 0 ∧
    (search_input ⟨[⟨['p'], ['a'], none⟩], [0], 0, 4, [], none⟩
      'z').selected = 0 ∧
    ¬((search_input ⟨[⟨['p'], ['a'], none⟩], [0], 0, 4, [], none⟩
      'z').selected <
      (search_input ⟨[⟨['p'], ['a'], none⟩], [0], 0, 4, [], none⟩
        'z').filtered_indices.length) := by
  decide

/-- C7: whenever move_down is not at its no-op boundary
(index + columns < length), move_down followed immediately by move_up
returns the selection to the original index. -/
theorem move_down_up_inverse (s : NavState)
    (hcols : 1 ≤ s.columns)
    (hsel : s.selected < s.filtered_indices.length)
    (hdown : s.selected + s.columns < s.filtered_indices.length) :
    (move_up (move_down s)).selected = s.selected := by
  unfold move_down
  dsimp only
  rw [if_pos hdown]
  unfold move_up
  dsimp only
  rw [if_pos (Nat.le_add_left s.columns s.selected)]
  dsimp only
  omega

/-- Witness for C7: 8 items, 4 columns, index 1: down then up is 1. -/
theorem move_down_up_inverse_witness :
    (move_up (move_down
      ⟨[], [0, 1, 2, 3, 4, 5, 6, 7], 1, 4, [], none⟩)).selected = 1 :=
  move_down_up_inverse ⟨[], [0, 1, 2, 3, 4, 5, 6, 7], 1, 4, [], none⟩
    (by decide) (by decide) (by decide)

/-- `App::selected_wallpaper`, src/app.rs lines 373-377. -/
def selected_wallpaper (s : NavState) : Option Wallpaper :=
  (s.filtered_indices.get? s.selected).bind (fun idx => s.wallpapers.get? idx)

/-- `App::apply_wallpaper`, src/app.rs lines 350-362.  The external
filesystem side effects (`wallpaper::install_wallpaper`,
`wallpaper::set_wallpaper`, src/wallpaper.rs lines 104-138) are modelled by
the oracle `io`, which returns the installed path on success and `none` on
an I/O error (an `Err` early return, modelled as an overall `none`).  When
the selection does not resolve to a catalog entry, the function performs no
installation, leaves the state unchanged, and returns `Ok(())`. -/
def apply_wallpaper (io : Wallpaper → Option (List Char)) (s : NavState) :
    Option NavState :=
  match s.filtered_indices.get? s.selected with
  | some idx =>
      match s.wallpapers.get? idx with
      | some w =>
          match io w with
          | some installed =>
              some { s with current_wallpaper := some installed }
          | none => none
      | none => some s
  | none => some s

/-- C10: whenever the filtered view is empty or the selection does not
resolve to a valid catalog entry, selected_wallpaper returns none, and
apply_wallpaper performs no installation, changes no state, and returns
success, whatever the external I/O would do. -/
theorem selected_wallpaper_invalid (s : NavState)
    (io : Wallpaper → Option (List Char))
    (h : ∀ idx, s.filtered_indices.get? s.selected = some idx →
      s.wallpapers.get? idx = none) :
    selected_wallpaper s = none ∧ apply_wallpaper io s = some s := by
  constructor
  · unfold selected_wallpaper
    cases hg : s.filtered_indices.get? s.selected with
    | none => rfl
    | some idx => exact h idx hg
  · unfold apply_wallpaper
    cases hg : s.filtered_indices.get? s.selected with
    | none => rfl
    | some idx =>
        dsimp only
        rw [h idx hg]

/-- Witness for C10 at the empty state. -/
theorem selected_wallpaper_invalid_witness :
    selected_wallpaper ⟨[], [], 0, 4, [], none⟩ = none ∧
    apply_wallpaper (fun _ => none) ⟨[], [], 0, 4, [], none⟩ =
      some ⟨[], [], 0, 4, [], none⟩ :=
  selected_wallpaper_invalid ⟨[], [], 0, 4, [], none⟩ (fun _ => none)
    (fun _ hidx => Option.noConfusion hidx)

end App

namespace UI

/-- `MIN_CELL_WIDTH`, src/ui.rs line 67. -/
def MIN_CELL_WIDTH : Nat := 30

/-- `MAX_COLUMNS`, src/ui.rs line 68. -/
def MAX_COLUMNS : Nat := 8

/-- `MIN_COLUMNS`, src/ui.rs line 69. -/
def MIN_COLUMNS : Nat := 1

/-- Rust `Ord::clamp(self, min, max)`: min if below, max if above, self
otherwise (used at src/ui.rs line 72). -/
def clampNat (v lo hi : Nat) : Nat :=
  if v < lo then lo else if v > hi then hi else v

/-- `grid_width`, src/ui.rs line 63: one column is reserved for the
scrollbar (`inner.width.saturating_sub(1)`); Nat subtraction is
saturating. -/
def gridWidth (innerW : Nat) : Nat := innerW - 1

/-- `columns`, src/ui.rs lines 71-72. -/
def columnsFor (innerW : Nat) : Nat :=
  clampNat (gridWidth innerW / MIN_CELL_WIDTH) MIN_COLUMNS MAX_COLUMNS

/-- `cell_width`, src/ui.rs line 77. -/
def cellWidthFor (innerW : Nat) : Nat :=
  gridWidth innerW / columnsFor innerW

/-- `cell_height`, src/ui.rs line 79 (2:1 cell aspect). -/
def cellHeightFor (innerW : Nat) : Nat :=
  cellWidthFor innerW / 2

/-- The derived grid quantities of one layout pass
(src/ui.rs lines 71-101). -/
structure Geometry where
  columns : Nat
  cell_width : Nat
  cell_height : Nat
  total_rows : Nat
  scroll_offset : Nat
deriving DecidableEq, Repr

/-- A ratatui `Rect`. -/
structure Rect where
  x : Nat
  y : Nat
  width : Nat
  height : Nat
deriving DecidableEq, Repr

/-- The geometry computed by `render_grid` for a nonempty catalog view
inside a drawable area of `innerW × innerH` (the area within the block
border), mirroring src/ui.rs lines 49-101: `none` when the filtered view
is empty (early return at line 49) or when `cell_height` is 0 (early
return at line 81), since the source computes no further geometry in
those cases. -/
def gridGeometry (innerW innerH n selected : Nat) : Option Geometry :=
  if n = 0 then none
  else
    let cols := columnsFor innerW
    let cw := cellWidthFor innerW
    let ch := cellHeightFor innerW
    if ch = 0 then none
    else
      let total_rows := (n + cols - 1) / cols
      let selected_row := selected / cols
      let vfr := innerH / ch
      let off :=
        if selected_row < vfr / 2 then 0
        else if selected_row ≥ total_rows - vfr / 2 then total_rows - vfr
        else selected_row - vfr / 2
      some ⟨cols, cw, ch, total_rows, off⟩

/-- The visible-cell list produced by the render loop of `render_grid`
(src/ui.rs lines 104-130): rows from the scroll offset until the first row
at or past `total_rows` (the `break`), columns until the first position at
or past the item count (the inner `break`), skipping cells whose clipped
height falls below 3 (the `continue`), each paired with its `cell_area`
rect (`x`,`y` offset by the drawable origin, width and height reduced by
one for spacing, both saturating). -/
def visibleCells (innerX innerY innerW innerH n selected : Nat) :
    List (Nat × Rect) :=
  if n = 0 then []
  else
    let cols := columnsFor innerW
    let cw := cellWidthFor innerW
    let ch := cellHeightFor innerW
    if ch = 0 then []
    else
      let total_rows := (n + cols - 1) / cols
      let selected_row := selected / cols
      let vfr := innerH / ch
      let extra := if innerH % ch > 0 then 1 else 0
      let vr := vfr + extra
      let off :=
        if selected_row < vfr / 2 then 0
        else if selected_row ≥ total_rows - vfr / 2 then total_rows - vfr
        else selected_row - vfr / 2
      (((List.range vr).takeWhile (fun row => off + row < total_rows)).flatMap
        (fun row =>
          ((List.range cols).takeWhile
            (fun col => (off + row) * cols + col < n)).filterMap
            (fun col =>
              let x := innerX + col * cw
              let y := innerY + row * ch
              let availH := (innerY + innerH) - y
              let tch := min ch availH
              if tch < 3 then none
              else some ((off + row) * cols + col,
                ⟨x, y, cw - 1, tch - 1⟩))))

theorem cols_spec (gw : Nat) :
    (1 ≤ clampNat (gw / 30) 1 8 ∧ clampNat (gw / 30) 1 8 ≤ 8) ∧
    ((30 ≤ gw / clampNat (gw / 30) 1 8 ∧
      ∀ c, c ≤ 8 → 30 ≤ gw / c → c ≤ clampNat (gw / 30) 1 8) ∨
     (clampNat (gw / 30) 1 8 = 1 ∧
      ∀ c, 1 ≤ c → c ≤ 8 → gw / c < 30)) := by
  unfold clampNat
  by_cases h30 : gw < 30
  · have hq : gw / 30 = 0 := Nat.div_eq_of_lt h30
    rw [hq]
    rw [if_pos (by omega)]
    refine ⟨⟨le_refl 1, by omega⟩, Or.inr ⟨rfl, fun c hc1 hc8 => ?_⟩⟩
    calc gw / c ≤ gw := Nat.div_le_self _ _
    _ < 30 := h30
  · push_neg at h30
    have hq1 : 1 ≤ gw / 30 := by omega
    rw [if_neg (by omega)]
    by_cases hq8 : gw / 30 > 8
    · rw [if_pos hq8]
      refine ⟨⟨by omega, le_refl 8⟩, Or.inl ⟨?_, fun c hc8 hcw => hc8⟩⟩
      exact (Nat.le_div_iff_mul_le (by omega)).mpr (by omega)
    · rw [if_neg hq8]
      push_neg at hq8
      refine ⟨⟨hq1, hq8⟩, Or.inl ⟨?_, fun c hc8 hcw => ?_⟩⟩
      · have hmul : gw / 30 * 30 ≤ gw := Nat.div_mul_le_self gw 30
        exact (Nat.le_div_iff_mul_le (by omega)).mpr (by omega)
      · rcases Nat.eq_zero_or_pos c with hc0 | hcpos
        · omega
        · have hc30 : 30 * c ≤ gw := (Nat.le_div_iff_mul_le hcpos).mp hcw
          omega

/-- C5: for every drawable width of at least one minimum cell width, the
column count is within [MIN_COLUMNS, MAX_COLUMNS], and it is the largest
value ≤ MAX_COLUMNS whose resulting cell width is still ≥ MIN_CELL_WIDTH —
or MIN_COLUMNS when no column count ≤ MAX_COLUMNS achieves that. -/
theorem columns_in_range (innerW : Nat) (h : MIN_CELL_WIDTH ≤ innerW) :
    (MIN_COLUMNS ≤ columnsFor innerW ∧ columnsFor innerW ≤ MAX_COLUMNS) ∧
    ((MIN_CELL_WIDTH ≤ cellWidthFor innerW ∧
      ∀ c, c ≤ MAX_COLUMNS → MIN_CELL_WIDTH ≤ gridWidth innerW / c →
        c ≤ columnsFor innerW) ∨
     (columnsFor innerW = MIN_COLUMNS ∧
      ∀ c, MIN_COLUMNS ≤ c → c ≤ MAX_COLUMNS →
        gridWidth innerW / c < MIN_CELL_WIDTH)) :=
  cols_spec (gridWidth innerW)

/-- Witness for C5 at drawable width 121: columns lie in [1, 8]. -/
theorem columns_in_range_witness :
    MIN_COLUMNS ≤ columnsFor 121 ∧ columnsFor 121 ≤ MAX_COLUMNS :=
  (columns_in_range 121 (by decide)).1

/-- Counterexample to C8 as stated: for a viewport width of 120 (so a
grid width of 119 after the one-column scrollbar reservation of
src/ui.rs line 63), height 40 and 17 items, the engine computes
columns = 3, cell_width = 39, cell_height = 19, total_rows = 6 — not the
claimed 4 / 30 / 15 / 5. -/
theorem grid_scenario_cex :
    gridGeometry 120 40 17 0 =
      some ⟨3, 39, 19, 6, 0⟩ := by decide

/-- C8 (amended): the scenario's numbers hold when the width left after
the scrollbar reservation is 120 (drawable width 121): columns = 4,
cell_width = 30, cell_height = 15, total_rows = 5. -/
theorem grid_scenario :
    gridGeometry 121 40 17 0 =
      some ⟨4, 30, 15, 5, 0⟩ := by decide

/-- C9: the grid-geometry computation is a total function; with zero
items the visible-cell list is empty; when the computed cell height is 0
the grid renders nothing for that frame; and the column count — the only
divisor of the layout divisions besides the guarded cell height — is
always at least 1. -/
theorem grid_geometry_total (innerX innerY innerW innerH n selected : Nat) :
    visibleCells innerX innerY innerW innerH 0 selected = [] ∧
    (cellHeightFor innerW = 0 →
      visibleCells innerX innerY innerW innerH n selected = []) ∧
    1 ≤ columnsFor innerW := by
  refine ⟨rfl, fun hch => ?_, (cols_spec (gridWidth innerW)).1.1⟩
  unfold visibleCells
  by_cases hn : n = 0
  · rw [if_pos hn]
  · rw [if_neg hn]
    dsimp only
    rw [if_pos hch]

/-- Witness for C9: a drawable width of 2 yields cell height 0, and the
grid renders nothing. -/
theorem grid_geometry_total_witness :
    visibleCells 0 0 2 40 17 0 = [] :=
  (grid_geometry_total 0 0 2 40 17 0).2.1 (by decide)

/-- The per-index protocol map `app.image_states` used by
`render_wallpaper_cell` (src/ui.rs lines 199-210).  Note: `App`
(src/app.rs lines 16-33) declares no such field — the two files are out of
sync — so the map is modelled from its use sites in ui.rs: a hash map from
the catalog index alone (not an (index, width, height) key) to a protocol;
insertion replaces any previous binding. -/
def statesInsert (m : List (Nat × Nat)) (k v : Nat) : List (Nat × Nat) :=
  (k, v) :: m.filter (fun p => ¬(p.1 = k))

/-- The image-handling path of `render_wallpaper_cell`
(src/ui.rs lines 198-213) for one visible cell: if the index has no entry
in `image_states`, the thumbnail (lazily loaded by
`Wallpaper::load_thumbnail`; `thumbnail` is its value after that attempt,
`none` if loading failed) is encoded SYNCHRONOUSLY on the render thread
with `picker.new_resize_protocol` and stored.  Returns the (untouched)
background-encoder state, the updated map, and the number of synchronous
encodes performed.  The function receives the `ImageEncoder` to record
that the source never consults or updates it here: no `get_cached`, no
`request_encode`. -/
def render_wallpaper_cell_image (encoder : Encoder.ImageEncoder)
    (image_states : List (Nat × Nat)) (original_index : Nat)
    (thumbnail : Option Nat) :
    Encoder.ImageEncoder × List (Nat × Nat) × Nat :=
  match image_states.lookup original_index with
  | some _ => (encoder, image_states, 0)
  | none =>
      match thumbnail with
      | some t =>
          (encoder,
            statesInsert image_states original_index
              (Picker.newResizeProtocol t), 1)
      | none => (encoder, image_states, 0)

/-- C4 fails on the code: on a cache miss for a visible cell (here item 0,
loaded thumbnail 7, empty per-index map), the render path performs the
encode itself, synchronously (count 1), stores it keyed by index alone,
and leaves the background encoder completely untouched for every encoder
state — it submits no request and reads no cached artifact from it. -/
theorem render_cell_sync_encode (enc : Encoder.ImageEncoder) :
    render_wallpaper_cell_image enc [] 0 (some 7) = (enc, [(0, 7)], 1) :=
  rfl

end UI
